import Mathlib

/-!
Verification of the alarm-clock controller (`alarmclock.py`).

The development shallowly embeds the parts of the program that the spec's
claims are about: wall-clock datetimes, the `HH:MM` time-string parsing
(`normalize_hhmm`), the alarm store (`list_alarms`, `update_alarm`,
`set_last_fired`), the scheduler tick (the body of `scheduler_thread`'s
loop), and the playback state machine (`stop_audio`, `play_vlc`,
`start_alarm`, `start_content`, `on_button_pressed`).

Modelling conventions:
* A `datetime.datetime` is a `DateTime`: a calendar date as a day index
  (day 0 is a Monday, so `date % 7` is Python's `weekday()`, Mon=0..Sun=6)
  plus a time-of-day in microseconds.  Python compares datetimes
  lexicographically by (date, time-of-day), which `dtLt`/`dtLe` mirror.
* ISO date strings (`last_fired_date`, `today_s`) are modelled by the day
  index of the date they denote, so string equality becomes `Nat` equality.
* `threading.Lock` in the source is non-reentrant; operations that would
  block forever re-acquiring the lock held by the same thread are modelled
  as returning `none`.
-/

/-- A `datetime.datetime` value: day index (day 0 = Monday) and
microseconds within the day. -/
structure DateTime where
  date : Nat
  tod : Nat
deriving Repr, DecidableEq

/-- Python `<` on datetimes: lexicographic on (date, time-of-day). -/
def dtLt (a b : DateTime) : Bool :=
  a.date < b.date || (a.date == b.date && a.tod < b.tod)

/-- Python `<=` on datetimes: lexicographic on (date, time-of-day). -/
def dtLe (a b : DateTime) : Bool :=
  a.date < b.date || (a.date == b.date && a.tod ≤ b.tod)

/-- The whitespace characters Python's `str.strip()` removes (ASCII). -/
def isPySpace (c : Char) : Bool :=
  c == ' ' || c == '\t' || c == '\n' || c == '\r' || c == '\x0b' || c == '\x0c'

/-- Python `str.strip()`: drop leading and trailing whitespace. -/
def pyStrip (s : String) : String :=
  String.mk (((s.toList.dropWhile isPySpace).reverse.dropWhile isPySpace).reverse)

/-- Digit run of Python's `int()` grammar: digits with single underscores
allowed between digits, accumulating into `acc`. -/
def pyDigitsCore : List Char → Nat → Option Nat
  | [], acc => some acc
  | '_' :: c :: rest, acc =>
    if c.isDigit then pyDigitsCore rest (acc * 10 + (c.toNat - 48)) else none
  | c :: rest, acc =>
    if c.isDigit then pyDigitsCore rest (acc * 10 + (c.toNat - 48)) else none

/-- Unsigned part of Python `int()`: a nonempty digit run. -/
def pyIntCore : List Char → Option Nat
  | c :: rest => if c.isDigit then pyDigitsCore rest (c.toNat - 48) else none
  | [] => none

/-- Python `int(s)` for a base-10 string: strips whitespace, allows one
sign, then digits (with underscores between digits); `none` = `ValueError`. -/
def pyInt (s : String) : Option Int :=
  match (pyStrip s).toList with
  | '+' :: rest => (pyIntCore rest).map Int.ofNat
  | '-' :: rest => (pyIntCore rest).map (fun n => -(n : Int))
  | t => (pyIntCore t).map Int.ofNat

/-- Python `s.split(":")` on the character list: split at every colon;
the empty string yields one empty part. -/
def splitCharsOnColon : List Char → List (List Char)
  | [] => [[]]
  | c :: rest =>
    let r := splitCharsOnColon rest
    if c = ':' then [] :: r
    else
      match r with
      | g :: gs => (c :: g) :: gs
      | [] => [[c]]

/-- Python `s.split(":")`. -/
def pySplitColon (s : String) : List String :=
  (splitCharsOnColon s.toList).map String.mk

/-- Zero-pad a value 0..99 to two digits, as Python `f"{n:02d}"` does for
the in-range hours/minutes `normalize_hhmm` prints. -/
def pad2 (n : Nat) : String :=
  if n < 10 then "0" ++ toString n else toString n

/-- `normalize_hhmm(value)` from `alarmclock.py`: `none` models a raised
`ValueError` (missing input, fewer than two colon-separated parts,
non-integer hour/minute, or out-of-range hour/minute); otherwise returns
the zero-padded `"HH:MM"`, ignoring any parts after the minute. -/
def normalize_hhmm (value : Option String) : Option String :=
  match value with
  | none => none
  | some v =>
    match pySplitColon (pyStrip v) with
    | p0 :: p1 :: _ =>
      match pyInt p0, pyInt p1 with
      | some hh, some mm =>
        if 0 ≤ hh ∧ hh ≤ 23 ∧ 0 ≤ mm ∧ mm ≤ 59 then
          some (pad2 hh.toNat ++ ":" ++ pad2 mm.toNat)
        else none
      | _, _ => none
    | _ => none

/-- A row of the `alarms` table.  `last_fired_date` stores the day index of
the recorded ISO date, `none` for SQL `NULL`. -/
structure Alarm where
  id : Nat
  time_hhmm : String
  days_mask : Nat
  enabled : Bool
  last_fired_date : Option Nat
deriving Repr, DecidableEq

/-- Lexicographic text order on character lists, by code point — the
order SQLite's default BINARY collation gives `ORDER BY` on these ASCII
`"HH:MM"` strings. -/
def charListLe : List Char → List Char → Bool
  | [], _ => true
  | _ :: _, [] => false
  | a :: as, b :: bs =>
    if a.toNat < b.toNat then true
    else if b.toNat < a.toNat then false
    else charListLe as bs

/-- Text order on strings (SQLite BINARY collation). -/
def strLe (a b : String) : Bool :=
  charListLe a.toList b.toList

/-- `list_alarms()`: the stored rows ordered by `time_hhmm`
(`SELECT * FROM alarms ORDER BY time_hhmm`, i.e. text order; a stable
sort). -/
def list_alarms (store : List Alarm) : List Alarm :=
  store.insertionSort (fun a b => strLe a.time_hhmm b.time_hhmm = true)

/-- `set_last_fired(alarm_id, fired_date_str)`: SQL `UPDATE` of
`last_fired_date` on every row whose id matches. -/
def set_last_fired (store : List Alarm) (alarm_id : Nat) (fired_date : Nat) :
    List Alarm :=
  store.map (fun a =>
    if a.id == alarm_id then { a with last_fired_date := some fired_date } else a)

/-- `update_alarm(alarm_id, time_hhmm, days_mask, enabled)`: reads the
first row with the given id, computes the new field values (keeping old
ones where the argument is `None`), clears `last_fired_date` when the
schedule changed or the alarm transitions to enabled, and writes the row
back.  Returns whether a row was found, paired with the new store. -/
def update_alarm (store : List Alarm) (alarm_id : Nat)
    (time_hhmm : Option String) (days_mask : Option Nat)
    (enabled : Option Bool) : Bool × List Alarm :=
  match store.find? (fun a => a.id == alarm_id) with
  | none => (false, store)
  | some row =>
    let new_time := time_hhmm.getD row.time_hhmm
    let new_mask := days_mask.getD row.days_mask
    let new_enabled := enabled.getD row.enabled
    let schedule_changed := new_time != row.time_hhmm || new_mask != row.days_mask
    let enabled_changed := new_enabled != row.enabled
    let new_last_fired :=
      if schedule_changed || (enabled_changed && new_enabled) then none
      else row.last_fired_date
    (true,
     store.map (fun a =>
       if a.id == alarm_id then
         { id := a.id, time_hhmm := new_time, days_mask := new_mask,
           enabled := new_enabled, last_fired_date := new_last_fired }
       else a))

/-- The weekday-mask test from the scheduler loop:
`(mask & (1 << wd)) != 0` with `wd = now_dt.weekday()` (Mon=0..Sun=6). -/
def dayMatches (mask wd : Nat) : Bool :=
  mask &&& (1 <<< wd) != 0

/-- Parse of `alarm_scheduled_datetime_for_today`:
`hh, mm = [int(x) for x in time_hhmm.split(":")]` — succeeds exactly when
the split yields two parts that both parse as integers. -/
def parse_sched_hhmm (time_hhmm : String) : Option (Int × Int) :=
  match pySplitColon time_hhmm with
  | [a, b] =>
    match pyInt a, pyInt b with
    | some hh, some mm => some (hh, mm)
    | _, _ => none
  | _ => none

/-- `alarm_scheduled_datetime_for_today(time_hhmm, now_dt)`: today's date
combined with the alarm's time-of-day
(`now_dt.replace(hour=hh, minute=mm, second=0, microsecond=0)`); `none`
models the exception the scheduler catches (unparsable string or an
hour/minute `replace` rejects). -/
def alarm_scheduled_datetime_for_today (time_hhmm : String) (now_dt : DateTime) :
    Option DateTime :=
  match parse_sched_hhmm time_hhmm with
  | some (hh, mm) =>
    if 0 ≤ hh ∧ hh ≤ 23 ∧ 0 ≤ mm ∧ mm ≤ 59 then
      some ⟨now_dt.date, ((hh.toNat * 60 + mm.toNat) * 60) * 1000000⟩
    else none
  | none => none

/-- The per-alarm test of one scheduler-loop iteration: enabled, today's
weekday bit set in the mask, not already fired today, the time string
yields a scheduled datetime, and the edge-crossing test
`last_tick < scheduled <= now_dt` passes. -/
def alarm_due (a : Alarm) (last_tick now_dt : DateTime) : Bool :=
  a.enabled &&
  dayMatches a.days_mask (now_dt.date % 7) &&
  (a.last_fired_date != some now_dt.date) &&
  (match alarm_scheduled_datetime_for_today a.time_hhmm now_dt with
   | some scheduled => dtLt last_tick scheduled && dtLe scheduled now_dt
   | none => false)

/-- The alarm one tick of `scheduler_thread` fires: the first row of
`list_alarms()` passing every check (the loop breaks there). -/
def scheduler_tick_fired (store : List Alarm) (last_tick now_dt : DateTime) :
    Option Alarm :=
  (list_alarms store).find? (fun a => alarm_due a last_tick now_dt)

/-- The store after one tick: `set_last_fired(id, today_s)` for the fired
alarm, or unchanged when nothing fired. -/
def scheduler_tick_store (store : List Alarm) (last_tick now_dt : DateTime) :
    List Alarm :=
  match scheduler_tick_fired store last_tick now_dt with
  | some a => set_last_fired store a.id now_dt.date
  | none => store

/-- Externally visible actions of one tick, in program order. -/
inductive Event where
  | setLastFired (id : Nat) (date : Nat)
  | startAlarm
deriving Repr, DecidableEq

/-- The action trace of one tick: on a fire, `set_last_fired` strictly
before `start_alarm` (lines 369–370), nothing otherwise. -/
def scheduler_tick_events (store : List Alarm) (last_tick now_dt : DateTime) :
    List Event :=
  match scheduler_tick_fired store last_tick now_dt with
  | some a => [Event.setLastFired a.id now_dt.date, Event.startAlarm]
  | none => []

/-- Whether a run of ticks at the given successive `now` instants fires an
alarm with id `i`; each tick's `last_tick` is the previous tick's `now`. -/
def run_fires_id (store : List Alarm) (last_tick : DateTime)
    (nows : List DateTime) (i : Nat) : Bool :=
  match nows with
  | [] => false
  | now_dt :: rest =>
    (match scheduler_tick_fired store last_tick now_dt with
     | some a => a.id == i
     | none => false) ||
    run_fires_id (scheduler_tick_store store last_tick now_dt) now_dt rest i

/-- One spawned `cvlc` process: whether it is still running
(`poll() is None`), and the target / `--loop` flag it was started with. -/
structure Proc where
  alive : Bool
  target : String
  loop : Bool
deriving Repr, DecidableEq

/-- The module-level playback mode (`current_mode`). -/
inductive Mode where
  | idle
  | alarm
  | content
deriving Repr, DecidableEq

/-- The playback globals plus the history of spawned processes: `procs`
indexes every process ever spawned (pid = list index), `player_proc` is the
global of the same name (`none` = Python `None`). -/
structure PState where
  procs : List Proc
  player_proc : Option Nat
  current_mode : Mode
deriving Repr, DecidableEq

/-- `player_proc and player_proc.poll() is None`: a tracked process exists
and is still running. -/
def procLive (s : PState) : Bool :=
  match s.player_proc with
  | some p =>
    match s.procs[p]? with
    | some pr => pr.alive
    | none => false
  | none => false

/-- Mark the process at index `p` terminated (terminate/wait, with kill as
fallback, both leaving it not running). -/
def killAt : List Proc → Nat → List Proc
  | [], _ => []
  | pr :: rest, 0 => { pr with alive := false } :: rest
  | pr :: rest, n + 1 => pr :: killAt rest n

/-- `stop_audio()`: terminate the tracked process if it is still running,
then clear `player_proc` and set `current_mode = "idle"`.  It is called
with `player_lock` free and always completes. -/
def stop_audio (s : PState) : PState :=
  match s.player_proc with
  | some p =>
    if (match s.procs[p]? with | some pr => pr.alive | none => false) then
      { procs := killAt s.procs p, player_proc := none, current_mode := Mode.idle }
    else
      { procs := s.procs, player_proc := none, current_mode := Mode.idle }
  | none => { procs := s.procs, player_proc := none, current_mode := Mode.idle }

/-- `play_vlc(target, loop)`: acquires `player_lock` and, if a live process
exists, calls `stop_audio()` — which blocks forever re-acquiring the same
non-reentrant lock, modelled as `none`.  Otherwise spawns the new process
and records it in `player_proc`. -/
def play_vlc (s : PState) (target : String) (loop : Bool) : Option PState :=
  if procLive s then
    none
  else
    some { procs := s.procs ++ [⟨true, target, loop⟩],
           player_proc := some s.procs.length,
           current_mode := s.current_mode }

/-- `start_alarm()` with the chosen tone: `play_vlc(tone, loop=True)` then
`current_mode = "alarm"`. -/
def start_alarm (s : PState) (tone : String) : Option PState :=
  (play_vlc s tone true).map (fun t => { t with current_mode := Mode.alarm })

/-- `start_content()` with the configured content value:
`play_vlc(cval, loop=False)` then `current_mode = "content"`. -/
def start_content (s : PState) (cval : String) : Option PState :=
  (play_vlc s cval false).map (fun t => { t with current_mode := Mode.content })

/-- `on_button_pressed()`: in alarm mode stop the audio then start content;
in content mode stop the audio; in idle mode do nothing. -/
def on_button_pressed (s : PState) (cval : String) : Option PState :=
  match s.current_mode with
  | Mode.alarm => start_content (stop_audio s) cval
  | Mode.content => some (stop_audio s)
  | Mode.idle => some s

/-- Number of processes currently running. -/
def liveCount (s : PState) : Nat :=
  (s.procs.filter (fun pr => pr.alive)).length

/-- State soundness: every running process is the tracked one, so
`player_proc = None` means nothing is running. -/
def GoodState (s : PState) : Prop :=
  ∀ p pr, s.procs[p]? = some pr → pr.alive = true → s.player_proc = some p

/-- C9: days-mask semantics — with bit 0 = Monday through bit 6 = Sunday,
mask 31 (0b0011111) matches exactly the weekdays Monday (0) through
Friday (4), and never Saturday (5) or Sunday (6). -/
theorem days_mask_31_is_weekdays :
    ∀ wd : Nat, wd < 7 → (dayMatches 31 wd = true ↔ wd ≤ 4) := by
  decide

theorem days_mask_31_is_weekdays_witness :
    (dayMatches 31 4 = true ↔ 4 ≤ 4) ∧ (dayMatches 31 5 = true ↔ 5 ≤ 4) :=
  ⟨days_mask_31_is_weekdays 4 (by decide), days_mask_31_is_weekdays 5 (by decide)⟩

/-- C3: the claim that `start_content()` invoked while the alarm session is
live first tears the alarm session down and then starts the content
session is falsified by the code: `play_vlc` holds the non-reentrant
`player_lock` and calls `stop_audio()`, which blocks forever re-acquiring
that same lock.  At the failing input — a live alarm process, mode
`alarm` — the call deadlocks (`none`): no teardown completes and no new
session ever starts. -/
theorem start_content_while_alarm_deadlocks :
    start_content { procs := [{ alive := true, target := "alarmtone.mp3", loop := true }],
                    player_proc := some 0,
                    current_mode := Mode.alarm } "http://stream" = none := rfl

/-- C4: whenever a tick starts alarm playback, the trace of that tick is
exactly `set_last_fired(id, today)` followed by `start_alarm()`: the fired
alarm's last-fired-date is persisted strictly before playback begins, and
playback never begins without that write. -/
theorem fired_date_persisted_before_playback
    (store : List Alarm) (last_tick now_dt : DateTime)
    (h : Event.startAlarm ∈ scheduler_tick_events store last_tick now_dt) :
    ∃ a, scheduler_tick_fired store last_tick now_dt = some a ∧
      scheduler_tick_events store last_tick now_dt =
        [Event.setLastFired a.id now_dt.date, Event.startAlarm] := by
  cases hf : scheduler_tick_fired store last_tick now_dt with
  | none => simp [scheduler_tick_events, hf] at h
  | some a => exact ⟨a, rfl, by simp [scheduler_tick_events, hf]⟩

theorem fired_date_persisted_before_playback_witness :
    ∃ a, scheduler_tick_fired [⟨1, "07:30", 31, true, none⟩]
            ⟨0, 26999000000⟩ ⟨0, 27000000000⟩ = some a ∧
      scheduler_tick_events [⟨1, "07:30", 31, true, none⟩]
            ⟨0, 26999000000⟩ ⟨0, 27000000000⟩ =
        [Event.setLastFired a.id 0, Event.startAlarm] :=
  fired_date_persisted_before_playback _ _ _ (by decide)

/-- Any scheduled datetime produced for "today" carries today's date. -/
theorem alarm_scheduled_date_eq (t : String) (now_dt sched : DateTime)
    (h : alarm_scheduled_datetime_for_today t now_dt = some sched) :
    sched.date = now_dt.date := by
  unfold alarm_scheduled_datetime_for_today at h
  cases hp : parse_sched_hhmm t with
  | none => rw [hp] at h; simp at h
  | some p =>
    rw [hp] at h
    by_cases hr : 0 ≤ p.1 ∧ p.1 ≤ 23 ∧ 0 ≤ p.2 ∧ p.2 ≤ 59
    · simp only [if_pos hr] at h
      cases h
      rfl
    · simp only [if_neg hr] at h
      simp at h

/-- C1: for an enabled alarm whose days-mask has today's weekday bit set
and whose last-fired-date is not today, a scheduler tick fires it exactly
when `last_tick < scheduled <= now` (strict lower bound, inclusive upper
bound), where `scheduled` is today's date combined with the alarm's
time-of-day; otherwise (`last_tick >= scheduled` or `scheduled > now`) the
tick does not fire it. -/
theorem scheduler_fires_iff_crossing (a : Alarm) (last_tick now_dt sched : DateTime)
    (hen : a.enabled = true)
    (hmask : dayMatches a.days_mask (now_dt.date % 7) = true)
    (hlf : a.last_fired_date ≠ some now_dt.date)
    (hsched : alarm_scheduled_datetime_for_today a.time_hhmm now_dt = some sched) :
    sched.date = now_dt.date ∧
    (scheduler_tick_fired [a] last_tick now_dt = some a ↔
      (dtLt last_tick sched = true ∧ dtLe sched now_dt = true)) := by
  refine ⟨alarm_scheduled_date_eq _ _ _ hsched, ?_⟩
  have hdue : alarm_due a last_tick now_dt =
      (dtLt last_tick sched && dtLe sched now_dt) := by
    unfold alarm_due
    rw [hsched, hen, hmask]
    have hbne : (a.last_fired_date != some now_dt.date) = true := by
      simpa using hlf
    rw [hbne]
    simp
  have hlist : list_alarms [a] = [a] := by
    simp [list_alarms, List.insertionSort]
  unfold scheduler_tick_fired
  rw [hlist]
  constructor
  · intro h
    rcases List.find?_cons_eq_some.mp h with ⟨hd, _⟩ | ⟨hnd, hfind⟩
    · rw [hdue] at hd
      exact ⟨(Bool.and_eq_true _ _).mp hd |>.1, (Bool.and_eq_true _ _).mp hd |>.2⟩
    · simp at hfind
  · intro ⟨h1, h2⟩
    have : alarm_due a last_tick now_dt = true := by rw [hdue, h1, h2]; rfl
    simp [List.find?_cons, this]

theorem scheduler_fires_iff_crossing_witness :
    scheduler_tick_fired [⟨1, "07:30", 31, true, none⟩]
        ⟨0, 26999000000⟩ ⟨0, 27000000000⟩ =
      some ⟨1, "07:30", 31, true, none⟩ :=
  ((scheduler_fires_iff_crossing ⟨1, "07:30", 31, true, none⟩
      ⟨0, 26999000000⟩ ⟨0, 27000000000⟩ ⟨0, 27000000000⟩
      rfl (by decide) (by decide) (by decide)).2).mpr (by decide)


/-- C10: `normalize_hhmm` errors exactly when the input is missing, has
fewer than two colon-separated parts, has a non-integer hour or minute, or
has hour outside 0–23 or minute outside 0–59; on every other input it
returns the hour and minute zero-padded as `"HH:MM"`, ignoring any parts
after the minute — so `"7:5"` yields `"07:05"` and `"07:30:15"` yields
`"07:30"`. -/
theorem normalize_hhmm_total_spec :
    normalize_hhmm none = none ∧
    (∀ s : String, (pySplitColon (pyStrip s)).length < 2 →
      normalize_hhmm (some s) = none) ∧
    (∀ s : String, ∀ p0 p1 : String, ∀ rest : List String,
      pySplitColon (pyStrip s) = p0 :: p1 :: rest →
      (pyInt p0 = none ∨ pyInt p1 = none) →
      normalize_hhmm (some s) = none) ∧
    (∀ s : String, ∀ p0 p1 : String, ∀ rest : List String, ∀ hh mm : Int,
      pySplitColon (pyStrip s) = p0 :: p1 :: rest →
      pyInt p0 = some hh → pyInt p1 = some mm →
      ¬(0 ≤ hh ∧ hh ≤ 23 ∧ 0 ≤ mm ∧ mm ≤ 59) →
      normalize_hhmm (some s) = none) ∧
    (∀ s : String, ∀ p0 p1 : String, ∀ rest : List String, ∀ hh mm : Int,
      pySplitColon (pyStrip s) = p0 :: p1 :: rest →
      pyInt p0 = some hh → pyInt p1 = some mm →
      0 ≤ hh ∧ hh ≤ 23 ∧ 0 ≤ mm ∧ mm ≤ 59 →
      normalize_hhmm (some s) = some (pad2 hh.toNat ++ ":" ++ pad2 mm.toNat)) ∧
    normalize_hhmm (some "7:5") = some "07:05" ∧
    normalize_hhmm (some "07:30:15") = some "07:30" := by
  refine ⟨rfl, ?_, ?_, ?_, ?_, by decide, by decide⟩
  · intro s hlen
    simp only [normalize_hhmm]
    cases hsp : pySplitColon (pyStrip s) with
    | nil => simp [hsp]
    | cons p0 ps =>
      cases ps with
      | nil => simp [hsp]
      | cons p1 rest => rw [hsp] at hlen; simp at hlen; omega
  · intro s p0 p1 rest hsp hint
    simp only [normalize_hhmm, hsp]
    rcases hint with h0 | h1
    · rw [h0]
    · rw [h1]
      cases pyInt p0 <;> simp
  · intro s p0 p1 rest hh mm hsp h0 h1 hrange
    simp only [normalize_hhmm, hsp, h0, h1]
    simp [hrange]
  · intro s p0 p1 rest hh mm hsp h0 h1 hrange
    simp only [normalize_hhmm, hsp, h0, h1]
    simp [hrange]

theorem normalize_hhmm_total_spec_witness :
    normalize_hhmm (some " 9:05 ") = some (pad2 (9 : Int).toNat ++ ":" ++ pad2 (5 : Int).toNat) ∧
    normalize_hhmm (some "24:00") = none ∧
    normalize_hhmm (some "0730") = none ∧
    normalize_hhmm (some "7:x") = none :=
  ⟨normalize_hhmm_total_spec.2.2.2.2.1 " 9:05 " "9" "05" [] 9 5 (by decide) (by decide)
      (by decide) (by decide),
   normalize_hhmm_total_spec.2.2.2.1 "24:00" "24" "00" [] 24 0 (by decide) (by decide)
      (by decide) (by decide),
   normalize_hhmm_total_spec.2.1 "0730" (by decide),
   normalize_hhmm_total_spec.2.2.1 "7:x" "7" "x" [] (by decide) (Or.inr (by decide))⟩

/-- A `find?` after a map that rewrites exactly the id-matching rows and
keeps their ids matching returns the image of the originally found row. -/
theorem find_map_preserving_id (l : List Alarm) (i : Nat) (f : Alarm → Alarm)
    (hf : ∀ a : Alarm, (a.id == i) = true → ((f a).id == i) = true)
    (row : Alarm)
    (h : l.find? (fun a => a.id == i) = some row) :
    (l.map (fun a => if a.id == i then f a else a)).find? (fun a => a.id == i) =
      some (f row) := by
  induction l with
  | nil => simp at h
  | cons b rest ih =>
    simp only [List.map_cons, List.find?_cons] at h ⊢
    by_cases hb : (b.id == i) = true
    · rw [hb] at h
      have hbr : b = row := by simpa using h
      subst hbr
      rw [if_pos hb, hf b hb]
    · have hb2 : (b.id == i) = false := by simpa using hb
      rw [hb2] at h
      rw [if_neg hb, hb2]
      exact ih h

/-- C7: `update_alarm` clears `last_fired_date` exactly when the update
changes the time-of-day or the days-mask, or transitions the alarm from
disabled to enabled; any other found update (disabling an enabled alarm,
or re-sending identical values) preserves it — and the stored
time/mask/enabled fields always take the new effective values. -/
theorem update_alarm_clears_last_fired_iff (store : List Alarm) (alarm_id : Nat)
    (t : Option String) (d : Option Nat) (e : Option Bool) (row : Alarm)
    (hrow : store.find? (fun a => a.id == alarm_id) = some row) :
    (update_alarm store alarm_id t d e).1 = true ∧
    (update_alarm store alarm_id t d e).2.find? (fun a => a.id == alarm_id) =
      some { id := row.id,
             time_hhmm := t.getD row.time_hhmm,
             days_mask := d.getD row.days_mask,
             enabled := e.getD row.enabled,
             last_fired_date :=
               if t.getD row.time_hhmm ≠ row.time_hhmm ∨
                  d.getD row.days_mask ≠ row.days_mask ∨
                  (row.enabled = false ∧ e.getD row.enabled = true) then none
               else row.last_fired_date } := by
  have hcond :
      (((t.getD row.time_hhmm != row.time_hhmm || d.getD row.days_mask != row.days_mask) ||
        (e.getD row.enabled != row.enabled && e.getD row.enabled)) = true) ↔
      (t.getD row.time_hhmm ≠ row.time_hhmm ∨
       d.getD row.days_mask ≠ row.days_mask ∨
       (row.enabled = false ∧ e.getD row.enabled = true)) := by
    cases hre : row.enabled <;> cases hge : e.getD row.enabled <;>
      simp [hre, hge, bne_iff_ne, or_assoc]
  have hite :
      (if (t.getD row.time_hhmm != row.time_hhmm || d.getD row.days_mask != row.days_mask) ||
          (e.getD row.enabled != row.enabled && e.getD row.enabled) then (none : Option Nat)
       else row.last_fired_date) =
      (if t.getD row.time_hhmm ≠ row.time_hhmm ∨
          d.getD row.days_mask ≠ row.days_mask ∨
          (row.enabled = false ∧ e.getD row.enabled = true) then none
       else row.last_fired_date) :=
    if_congr hcond rfl rfl
  constructor
  · unfold update_alarm
    rw [hrow]
  · unfold update_alarm
    rw [hrow]
    simp only
    rw [← hite]
    exact find_map_preserving_id store alarm_id
      (fun a => { id := a.id,
                  time_hhmm := t.getD row.time_hhmm,
                  days_mask := d.getD row.days_mask,
                  enabled := e.getD row.enabled,
                  last_fired_date :=
                    if (t.getD row.time_hhmm != row.time_hhmm ||
                        d.getD row.days_mask != row.days_mask) ||
                       (e.getD row.enabled != row.enabled && e.getD row.enabled)
                    then none else row.last_fired_date })
      (fun a ha => ha) row hrow

theorem update_alarm_clears_last_fired_iff_witness :
    (update_alarm [⟨1, "07:30", 31, true, some 5⟩] 1 none none (some false)).1 = true ∧
    (update_alarm [⟨1, "07:30", 31, true, some 5⟩] 1 none none (some false)).2.find?
        (fun a => a.id == 1) = some ⟨1, "07:30", 31, false, some 5⟩ := by
  have h := update_alarm_clears_last_fired_iff [⟨1, "07:30", 31, true, some 5⟩] 1
      none none (some false) ⟨1, "07:30", 31, true, some 5⟩ (by decide)
  refine ⟨h.1, ?_⟩
  rw [h.2]
  decide

/-- The predicate holds at a found element (explicit-argument form). -/
theorem find_some_pred {α : Type} (p : α → Bool) (l : List α) (a : α)
    (h : l.find? p = some a) : p a = true :=
  List.find?_some h

/-- A successful `find?` splits the list at the first satisfying element:
everything before it fails the predicate. -/
theorem find_eq_some_split {α : Type} (p : α → Bool) (l : List α) (a : α)
    (h : l.find? p = some a) :
    ∃ l1 l2, l = l1 ++ a :: l2 ∧ ∀ b ∈ l1, p b = false := by
  induction l with
  | nil => simp at h
  | cons x rest ih =>
    by_cases hx : p x = true
    · simp only [List.find?_cons] at h
      rw [hx] at h
      have hxa : x = a := by simpa using h
      subst hxa
      exact ⟨[], rest, rfl, by simp⟩
    · have hx2 : p x = false := by simpa using hx
      simp only [List.find?_cons] at h
      rw [hx2] at h
      obtain ⟨l1, l2, hsp, hall⟩ := ih h
      refine ⟨x :: l1, l2, by simp [hsp], ?_⟩
      intro b hb
      rcases List.mem_cons.mp hb with hbx | hbl
      · rw [hbx]; exact hx2
      · exact hall b hbl

/-- `charListLe` is total. -/
theorem charListLe_total : ∀ xs ys : List Char,
    charListLe xs ys = true ∨ charListLe ys xs = true := by
  intro xs
  induction xs with
  | nil => intro ys; left; rfl
  | cons a as ih =>
    intro ys
    cases ys with
    | nil => right; rfl
    | cons b bs =>
      unfold charListLe
      by_cases hab : a.toNat < b.toNat
      · left; rw [if_pos hab]
      · by_cases hba : b.toNat < a.toNat
        · right; rw [if_pos hba]
        · rw [if_neg hab, if_neg hba, if_neg hba, if_neg hab]
          exact ih bs

/-- `charListLe` is transitive. -/
theorem charListLe_trans : ∀ xs ys zs : List Char,
    charListLe xs ys = true → charListLe ys zs = true →
    charListLe xs zs = true := by
  intro xs
  induction xs with
  | nil => intro ys zs _ _; rfl
  | cons a as ih =>
    intro ys zs hxy hyz
    cases ys with
    | nil => simp [charListLe] at hxy
    | cons b bs =>
      cases zs with
      | nil => simp [charListLe] at hyz
      | cons c cs =>
        unfold charListLe at hxy hyz ⊢
        by_cases hab : a.toNat < b.toNat
        · rw [if_pos hab] at hxy
          by_cases hbc : b.toNat < c.toNat
          · rw [if_pos (show a.toNat < c.toNat by omega)]
          · rw [if_neg hbc] at hyz
            by_cases hcb : c.toNat < b.toNat
            · rw [if_pos hcb] at hyz
              exact absurd hyz (by simp)
            · rw [if_pos (show a.toNat < c.toNat by omega)]
        · rw [if_neg hab] at hxy
          by_cases hba : b.toNat < a.toNat
          · rw [if_pos hba] at hxy
            exact absurd hxy (by simp)
          · rw [if_neg hba] at hxy
            by_cases hbc : b.toNat < c.toNat
            · rw [if_pos (show a.toNat < c.toNat by omega)]
            · rw [if_neg hbc] at hyz
              by_cases hcb : c.toNat < b.toNat
              · rw [if_pos hcb] at hyz
                exact absurd hyz (by simp)
              · rw [if_neg hcb] at hyz
                rw [if_neg (show ¬ a.toNat < c.toNat by omega),
                    if_neg (show ¬ c.toNat < a.toNat by omega)]
                exact ih bs cs hxy hyz

/-- C5: when at least one alarm is due in a tick, exactly one alarm fires
(one `start_alarm` in the tick's trace): the first due row of
`list_alarms()` — a list sorted ascending by time string — and every row
before it in that order is not due. -/
theorem first_due_alarm_wins_tick (store : List Alarm) (lt now_dt : DateTime)
    (h : ∃ b ∈ list_alarms store, alarm_due b lt now_dt = true) :
    ∃ a l1 l2,
      scheduler_tick_fired store lt now_dt = some a ∧
      alarm_due a lt now_dt = true ∧
      list_alarms store = l1 ++ a :: l2 ∧
      (∀ b ∈ l1, alarm_due b lt now_dt = false) ∧
      (scheduler_tick_events store lt now_dt).countP
        (fun e => e == Event.startAlarm) = 1 ∧
      List.Pairwise (fun x y : Alarm => strLe x.time_hhmm y.time_hhmm = true)
        (list_alarms store) := by
  obtain ⟨b, hbmem, hbdue⟩ := h
  have hsome : ((list_alarms store).find? (fun c => alarm_due c lt now_dt)).isSome := by
    rw [List.find?_isSome]
    exact ⟨b, hbmem, hbdue⟩
  obtain ⟨a, hf⟩ := Option.isSome_iff_exists.mp hsome
  obtain ⟨l1, l2, hsplit, hprev⟩ := find_eq_some_split _ _ _ hf
  have hfired : scheduler_tick_fired store lt now_dt = some a := hf
  have hadue : alarm_due a lt now_dt = true :=
    find_some_pred (fun c => alarm_due c lt now_dt) (list_alarms store) a hf
  refine ⟨a, l1, l2, hfired, hadue, hsplit, hprev, ?_, ?_⟩
  · simp [scheduler_tick_events, hfired, List.countP_cons]
  · haveI : IsTotal Alarm (fun x y : Alarm => strLe x.time_hhmm y.time_hhmm = true) :=
      ⟨fun x y => charListLe_total x.time_hhmm.toList y.time_hhmm.toList⟩
    haveI : IsTrans Alarm (fun x y : Alarm => strLe x.time_hhmm y.time_hhmm = true) :=
      ⟨fun x y z hxy hyz =>
        charListLe_trans x.time_hhmm.toList y.time_hhmm.toList z.time_hhmm.toList hxy hyz⟩
    exact List.sorted_insertionSort _ store

theorem first_due_alarm_wins_tick_witness :
    ∃ a l1 l2,
      scheduler_tick_fired [⟨2, "07:30", 31, true, none⟩, ⟨1, "07:30", 31, true, none⟩]
        ⟨0, 26999000000⟩ ⟨0, 27000000000⟩ = some a ∧
      alarm_due a ⟨0, 26999000000⟩ ⟨0, 27000000000⟩ = true ∧
      list_alarms [⟨2, "07:30", 31, true, none⟩, ⟨1, "07:30", 31, true, none⟩] =
        l1 ++ a :: l2 ∧
      (∀ b ∈ l1, alarm_due b ⟨0, 26999000000⟩ ⟨0, 27000000000⟩ = false) ∧
      (scheduler_tick_events
          [⟨2, "07:30", 31, true, none⟩, ⟨1, "07:30", 31, true, none⟩]
          ⟨0, 26999000000⟩ ⟨0, 27000000000⟩).countP
        (fun e => e == Event.startAlarm) = 1 ∧
      List.Pairwise (fun x y : Alarm => strLe x.time_hhmm y.time_hhmm = true)
        (list_alarms [⟨2, "07:30", 31, true, none⟩, ⟨1, "07:30", 31, true, none⟩]) :=
  first_due_alarm_wins_tick _ _ _ (by decide)

/-- `set_last_fired` leaves every id-matching row marked with the written
date. -/
theorem set_last_fired_marks (s : List Alarm) (i d : Nat) :
    ∀ b ∈ set_last_fired s i d, b.id = i → b.last_fired_date = some d := by
  intro b hb hbid
  obtain ⟨b0, hb0, hmap⟩ := List.mem_map.mp hb
  by_cases h0 : (b0.id == i) = true
  · rw [if_pos h0] at hmap
    rw [← hmap]
  · rw [if_neg h0] at hmap
    subst hmap
    exact absurd (by simpa using hbid) h0

/-- A tick never fires an alarm whose id is already marked fired today:
the `last_fired_date == today_s` check skips every such row. -/
theorem no_fire_of_marked (s : List Alarm) (lt now_dt : DateTime) (j : Nat)
    (hmark : ∀ b ∈ s, b.id = j → b.last_fired_date = some now_dt.date) :
    ∀ a, scheduler_tick_fired s lt now_dt = some a → a.id ≠ j := by
  intro a hf haj
  have hmem : a ∈ list_alarms s := List.mem_of_find?_eq_some hf
  have hmem2 : a ∈ s := ((List.perm_insertionSort _ s).mem_iff).mp hmem
  have hdue : alarm_due a lt now_dt = true :=
    find_some_pred (fun c => alarm_due c lt now_dt) (list_alarms s) a hf
  have hne : a.last_fired_date ≠ some now_dt.date := by
    unfold alarm_due at hdue
    simp only [Bool.and_eq_true, bne_iff_ne] at hdue
    exact hdue.1.2
  exact hne (hmark a hmem2 haj)

/-- Ticking preserves "every id-`j` row is marked fired today": the tick
either leaves rows alone or stamps them with today's date. -/
theorem marked_preserved (s : List Alarm) (lt now_dt : DateTime) (j : Nat)
    (hmark : ∀ b ∈ s, b.id = j → b.last_fired_date = some now_dt.date) :
    ∀ b ∈ scheduler_tick_store s lt now_dt, b.id = j →
      b.last_fired_date = some now_dt.date := by
  intro b hb hbid
  unfold scheduler_tick_store at hb
  cases hf : scheduler_tick_fired s lt now_dt with
  | none => rw [hf] at hb; exact hmark b hb hbid
  | some a =>
    rw [hf] at hb
    obtain ⟨b0, hb0, hmap⟩ := List.mem_map.mp hb
    by_cases h0 : (b0.id == a.id) = true
    · rw [if_pos h0] at hmap
      rw [← hmap]
    · rw [if_neg h0] at hmap
      subst hmap
      exact hmark b0 hb0 hbid

/-- No tick of a same-day run fires an id whose rows are all marked fired
today. -/
theorem run_no_fire_of_marked (rest : List DateTime) :
    ∀ (s : List Alarm) (lt : DateTime) (j : Nat) (dd : Nat),
      (∀ b ∈ s, b.id = j → b.last_fired_date = some dd) →
      (∀ d ∈ rest, d.date = dd) →
      run_fires_id s lt rest j = false := by
  induction rest with
  | nil => intro s lt j dd _ _; rfl
  | cons now_dt rest2 ih =>
    intro s lt j dd hmark hdates
    have hdate : now_dt.date = dd := hdates now_dt (List.mem_cons_self _ _)
    subst hdate
    have hmark2 : ∀ b ∈ s, b.id = j → b.last_fired_date = some now_dt.date := hmark
    unfold run_fires_id
    rw [Bool.or_eq_false_iff]
    constructor
    · cases hf : scheduler_tick_fired s lt now_dt with
      | none => rfl
      | some a =>
        have := no_fire_of_marked s lt now_dt j hmark2 a hf
        simpa using this
    · exact ih (scheduler_tick_store s lt now_dt) now_dt j now_dt.date
        (marked_preserved s lt now_dt j hmark2)
        (fun d hd => hdates d (List.mem_cons_of_mem _ hd))

/-- C2: an alarm fires at most once per calendar day — once a tick fires
it, every row with its id carries today's date as last-fired-date, and no
tick of any subsequent same-day run fires that id again. -/
theorem alarm_fires_at_most_once_per_day (store : List Alarm)
    (lt now_dt : DateTime) (a : Alarm)
    (hf : scheduler_tick_fired store lt now_dt = some a) :
    (∀ b ∈ scheduler_tick_store store lt now_dt, b.id = a.id →
       b.last_fired_date = some now_dt.date) ∧
    (∀ rest : List DateTime, (∀ d ∈ rest, d.date = now_dt.date) →
       run_fires_id (scheduler_tick_store store lt now_dt) now_dt rest a.id = false) := by
  have hmarked : ∀ b ∈ scheduler_tick_store store lt now_dt, b.id = a.id →
      b.last_fired_date = some now_dt.date := by
    unfold scheduler_tick_store
    rw [hf]
    exact set_last_fired_marks store a.id now_dt.date
  refine ⟨hmarked, ?_⟩
  intro rest hrest
  exact run_no_fire_of_marked rest (scheduler_tick_store store lt now_dt) now_dt
    a.id now_dt.date hmarked hrest

theorem alarm_fires_at_most_once_per_day_witness :
    run_fires_id
      (scheduler_tick_store [⟨1, "07:30", 31, true, none⟩]
        ⟨0, 26999000000⟩ ⟨0, 27000000000⟩)
      ⟨0, 27000000000⟩ [⟨0, 27060000000⟩, ⟨0, 36000000000⟩] 1 = false :=
  (alarm_fires_at_most_once_per_day [⟨1, "07:30", 31, true, none⟩]
      ⟨0, 26999000000⟩ ⟨0, 27000000000⟩ ⟨1, "07:30", 31, true, none⟩
      (by decide)).2
    [⟨0, 27060000000⟩, ⟨0, 36000000000⟩] (by decide)

/-- `stop_audio` always clears the process handle and returns to idle
mode. -/
theorem stop_audio_player_proc_none (s : PState) :
    (stop_audio s).player_proc = none ∧ (stop_audio s).current_mode = Mode.idle := by
  unfold stop_audio
  cases s.player_proc with
  | none => exact ⟨rfl, rfl⟩
  | some p =>
    dsimp only
    by_cases h : (match s.procs[p]? with | some pr => pr.alive | none => false) = true
    · rw [if_pos h]
      exact ⟨rfl, rfl⟩
    · rw [if_neg h]
      exact ⟨rfl, rfl⟩

/-- With no tracked process, `player_proc and player_proc.poll() is None`
is false. -/
theorem procLive_of_player_proc_none (s : PState) (h : s.player_proc = none) :
    procLive s = false := by
  unfold procLive
  rw [h]

/-- Index view of `killAt`: position `p` is marked dead, others are
untouched. -/
theorem killAt_getElem (l : List Proc) (p q : Nat) :
    (killAt l p)[q]? =
      if q = p then (l[p]?).map (fun pr => { pr with alive := false })
      else l[q]? := by
  induction l generalizing p q with
  | nil => cases q <;> cases p <;> simp [killAt]
  | cons x rest ih =>
    cases p with
    | zero =>
      cases q with
      | zero => simp [killAt]
      | succ n => simp [killAt]
    | succ m =>
      cases q with
      | zero => simp [killAt]
      | succ n => simp [killAt, ih]

/-- After `stop_audio` on a sound state, no spawned process is running. -/
theorem stop_audio_all_dead (s : PState) (hg : GoodState s) :
    ∀ (q : Nat) (pr : Proc), (stop_audio s).procs[q]? = some pr → pr.alive = false := by
  intro q pr hq
  unfold stop_audio at hq
  cases hp : s.player_proc with
  | none =>
    rw [hp] at hq
    dsimp only at hq
    cases ha : pr.alive
    · rfl
    · exact absurd (hg q pr hq ha) (by rw [hp]; simp)
  | some p =>
    rw [hp] at hq
    dsimp only at hq
    by_cases hl : (match s.procs[p]? with | some pr2 => pr2.alive | none => false) = true
    · rw [if_pos hl] at hq
      dsimp only at hq
      rw [killAt_getElem] at hq
      by_cases hqp : q = p
      · rw [if_pos hqp] at hq
        cases hgp : s.procs[p]? with
        | none => rw [hgp] at hq; simp at hq
        | some pr0 =>
          rw [hgp] at hq
          simp at hq
          rw [← hq]
      · rw [if_neg hqp] at hq
        cases ha : pr.alive
        · rfl
        · have h2 := hg q pr hq ha
          rw [hp] at h2
          injection h2 with h3
          exact absurd h3.symm hqp
    · rw [if_neg hl] at hq
      dsimp only at hq
      cases ha : pr.alive
      · rfl
      · have h2 := hg q pr hq ha
        rw [hp] at h2
        injection h2 with h3
        subst h3
        rw [hq] at hl
        simp [ha] at hl

/-- A process list with no running entry has zero live processes. -/
theorem liveCount_zero_of_all_dead (l : List Proc)
    (h : ∀ (q : Nat) (pr : Proc), l[q]? = some pr → pr.alive = false) :
    (l.filter (fun pr => pr.alive)).length = 0 := by
  rw [List.length_eq_zero, List.filter_eq_nil_iff]
  intro pr hpr
  obtain ⟨q, hq⟩ := List.mem_iff_getElem?.mp hpr
  simp [h q pr hq]

/-- C8: `stop_audio()` always ends with mode idle, a cleared process
handle and no live session (the tracked process, if running, is
terminated); calling it while already idle with no tracked process leaves
the state exactly unchanged — a no-op, not an error. -/
theorem stop_audio_idle_noop (s : PState) (hg : GoodState s) :
    (stop_audio s).current_mode = Mode.idle ∧
    (stop_audio s).player_proc = none ∧
    liveCount (stop_audio s) = 0 ∧
    (s.current_mode = Mode.idle → s.player_proc = none → stop_audio s = s) := by
  refine ⟨(stop_audio_player_proc_none s).2, (stop_audio_player_proc_none s).1, ?_, ?_⟩
  · exact liveCount_zero_of_all_dead _ (stop_audio_all_dead s hg)
  · intro h1 h2
    unfold stop_audio
    rw [h2]
    cases s with
    | mk procs pp cm =>
      dsimp only at h1 h2 ⊢
      rw [h1, h2]

theorem stop_audio_idle_noop_witness :
    stop_audio ⟨[], none, Mode.idle⟩ = ⟨[], none, Mode.idle⟩ ∧
    liveCount (stop_audio ⟨[⟨true, "tone.mp3", true⟩], some 0, Mode.alarm⟩) = 0 :=
  ⟨(stop_audio_idle_noop ⟨[], none, Mode.idle⟩
      (fun p pr h _ => by simp at h)).2.2.2 rfl rfl,
   (stop_audio_idle_noop ⟨[⟨true, "tone.mp3", true⟩], some 0, Mode.alarm⟩
      (fun p pr h _ => by
        match p, h with
        | 0, _ => rfl)).2.2.1⟩

/-- C6: a button press in alarm mode stops the alarm and starts a content
session, ending in content mode with a live non-looping session on the
configured content value (never directly idle); a press in content mode
stops playback, ending idle with no tracked process; a press in idle mode
changes nothing. -/
theorem button_press_transitions (s : PState) (cval : String) :
    (s.current_mode = Mode.alarm →
       ∃ t, on_button_pressed s cval = some t ∧
         t.current_mode = Mode.content ∧
         t.player_proc = some (stop_audio s).procs.length ∧
         t.procs[(stop_audio s).procs.length]? = some ⟨true, cval, false⟩ ∧
         procLive t = true) ∧
    (s.current_mode = Mode.content →
       on_button_pressed s cval = some (stop_audio s) ∧
       (stop_audio s).current_mode = Mode.idle ∧
       (stop_audio s).player_proc = none ∧
       procLive (stop_audio s) = false) ∧
    (s.current_mode = Mode.idle → on_button_pressed s cval = some s) := by
  have hppn := stop_audio_player_proc_none s
  have hlive : procLive (stop_audio s) = false :=
    procLive_of_player_proc_none _ hppn.1
  refine ⟨?_, ?_, ?_⟩
  · intro hm
    unfold on_button_pressed
    rw [hm]
    dsimp only
    unfold start_content play_vlc
    rw [hlive]
    refine ⟨_, rfl, rfl, rfl, ?_, ?_⟩
    · exact List.getElem?_concat_length _ _
    · unfold procLive
      dsimp only
      rw [List.getElem?_concat_length]
  · intro hm
    unfold on_button_pressed
    rw [hm]
    exact ⟨rfl, hppn.2, hppn.1, hlive⟩
  · intro hm
    unfold on_button_pressed
    rw [hm]

theorem button_press_transitions_witness :
    ∃ t, on_button_pressed ⟨[⟨true, "tone.mp3", true⟩], some 0, Mode.alarm⟩
          "http://stream" = some t ∧
      t.current_mode = Mode.content ∧
      t.player_proc = some
        (stop_audio ⟨[⟨true, "tone.mp3", true⟩], some 0, Mode.alarm⟩).procs.length ∧
      t.procs[(stop_audio ⟨[⟨true, "tone.mp3", true⟩], some 0,
          Mode.alarm⟩).procs.length]? = some ⟨true, "http://stream", false⟩ ∧
      procLive t = true :=
  (button_press_transitions ⟨[⟨true, "tone.mp3", true⟩], some 0, Mode.alarm⟩
    "http://stream").1 rfl
